import Mathlib

set_option maxRecDepth 8000

namespace APIHub

/-! Shallow embedding of src/crawler.py (class APICrawler).

Python strings are Lean Strings.  Python dicts that the code builds by
insertion are association lists preserving insertion order (a new key is
appended at the end, assignment to an existing key keeps its position,
exactly as CPython dicts behave).  Python sets that the code only uses for
membership and iteration are lists with first-insertion order (Python set
iteration order is unspecified; the list order is one deterministic
refinement of it).  External collaborators are oracle inputs: the HTTP
fetch (aiohttp session.get) is a function from URL to an outcome, the URL
library (urllib.parse.urljoin / urlparse(...).netloc) is a pair of
abstract functions, and the Tongyi Qianwen client call inside
parse_with_ai is a value describing either the exception it raises or the
message object it returns. -/

/-- Substring containment on character lists. -/
def strInfix (needle : List Char) : List Char → Bool
  | [] => needle.isEmpty
  | c :: rest => needle.isPrefixOf (c :: rest) || strInfix needle rest

/-- Python substring containment, the expression `needle in hay`. -/
def pyIn (needle hay : String) : Bool :=
  strInfix needle.toList hay.toList

/-- Split a character list at every separator charater (Python
`s.split(sep)` semantics: empty pieces are kept, the empty input gives one
empty piece). -/
def splitL (p : Char → Bool) : List Char → List (List Char)
  | [] => [[]]
  | c :: rest =>
    let r := splitL p rest
    if p c then [] :: r
    else
      match r with
      | [] => [[c]]
      | x :: xs => (c :: x) :: xs

/-- Python `s.split(sep)` on strings. -/
def pySplit (p : Char → Bool) (s : String) : List String :=
  (splitL p s.toList).map String.mk

/-- Python `s.lower()`: ASCII lowercasing, exactly what str.lower does on
the crawler's ASCII-or-CJK data (CJK characters are caseless in both). -/
def pyLower (s : String) : String :=
  String.mk (s.toList.map Char.toLower)

/-- Python `s.upper()`. -/
def pyUpper (s : String) : String :=
  String.mk (s.toList.map Char.toUpper)

/-- Python `s.strip()`: drop leading and trailing whitespace. -/
def pyTrim (s : String) : String :=
  String.mk (((s.toList.dropWhile Char.isWhitespace).reverse.dropWhile
    Char.isWhitespace).reverse)

/-- Python `s.split()` with no argument: split on whitespace runs, dropping
empty pieces. -/
def pySplitWs (s : String) : List String :=
  ((splitL Char.isWhitespace s.toList).map String.mk).filter (fun t => decide (t ≠ ""))

/-- Python `x in l` for a list of strings. -/
def lmem (x : String) (l : List String) : Bool :=
  l.any (fun y => decide (y = x))

/-- Python `s.split('?')[0]` (crawler.py line 278). -/
def stripQuery (s : String) : String :=
  (pySplit (fun c => decide (c = '?')) s).headD ""

/-- Python `url.split('#')[0]` guarded by `'#' in url` (crawler.py lines
105-106 and 144-145). -/
def stripFragment (u : String) : String :=
  if pyIn "#" u then (pySplit (fun c => decide (c = '#')) u).headD "" else u

/-- Python `param.strip('{}')` (crawler.py line 293): drop every leading and
trailing brace character. -/
def pyStripBraces (s : String) : String :=
  String.mk
    (((s.toList.dropWhile (fun c => decide (c = '{') || decide (c = '}'))).reverse.dropWhile
      (fun c => decide (c = '{') || decide (c = '}'))).reverse)

/-- Association-list lookup: Python `d[k]` / `d.get(k)` on an
insertion-ordered dict. -/
def alookup {α : Type} (k : String) : List (String × α) → Option α
  | [] => none
  | e :: rest => if e.1 = k then some e.2 else alookup k rest

/-- Association-list assignment `d[k] = v`: an existing key keeps its
position, a new key is appended at the end, as in a CPython dict. -/
def aupdate {α : Type} (k : String) (v : α) : List (String × α) → List (String × α)
  | [] => [(k, v)]
  | e :: rest => if e.1 = k then (k, v) :: rest else e :: aupdate k v rest

/-- Two-level dict lookup `d[p][m]` as an Option. -/
def lookup2 {α : Type} (x : List (String × List (String × α))) (p m : String) : Option α :=
  (alookup p x).bind (fun ms => alookup m ms)

/-! ## Data model for specification fragments

A parameter object as the code builds and merges it (crawler.py lines
294-299 and 469-476).  The merge only reads `p.get('name', '')` and
`p.get('in', '')`; an absent key is represented by the empty string, which
is observationally the same for every operation the code performs. -/

/-- A schema placeholder object such as `{'type': 'string'}`. -/
structure Schema where
  type : String
deriving DecidableEq, Repr

/-- A parameter object: name, location (`in`), required flag, schema. -/
structure Param where
  name : String
  loc : String
  required : Bool
  schema : Schema
deriving DecidableEq, Repr

/-- The single 200-response content of an operation: content type and
schema (crawler.py lines 307-313 and 410-419). -/
structure ResponseContent where
  contentType : String
  schema : Schema
deriving DecidableEq, Repr

/-- An operation object stored under a path and method:
`{'summary': ..., 'description': ..., 'parameters': [...], 'responses': ...}`. -/
structure Operation where
  summary : String
  description : String
  parameters : List Param
  response : ResponseContent
deriving DecidableEq, Repr

/-- The methods dict of one path: lowercase-or-as-given method name to
operation, in insertion order. -/
abbrev Methods := List (String × Operation)

/-- A `paths` mapping (also a partial spec fragment, keyed by path). -/
abbrev PathsMap := List (String × Methods)

/-- The `info` block of the final document (crawler.py lines 484-488). -/
structure SpecInfo where
  title : String
  version : String
  description : String
deriving DecidableEq, Repr

/-- The final OpenAPI document produced by combine_specs. -/
structure SpecDoc where
  openapi : String
  info : SpecInfo
  paths : PathsMap
deriving DecidableEq, Repr

/-! ## PageClassifier: APICrawler.is_api_doc_page (crawler.py 164-196) -/

/-- The fixed indicator vocabulary (crawler.py lines 169-177), a Python set
literal; `any` over it is order-independent, so a list is faithful. -/
def apiIndicators : List String :=
  ["endpoint", "api reference", "api documentation", "rest api",
   "http request", "http response", "parameters", "response body",
   "request body", "authentication", "authorization",
   "接口文档", "API文档", "接口说明", "接口定义", "请求参数",
   "响应参数", "返回参数", "认证方式", "调用方法", "HTTP请求",
   "HTTP响应"]

/-- One code/preformatted block of a page: its text and the text of the
nearest preceding paragraph/heading reachable through its parent
(crawler.py lines 281-287); `none` when there is no parent or no such
previous element. -/
structure CodeBlock where
  text : String
  prevText : Option String
deriving DecidableEq, Repr

/-- A parsed HTML page, at the granularity the crawler queries it:
title text (none when the page has no title element), the texts of the
h1/h2/h3 headings, the code/pre blocks, the full visible text
(soup.get_text()), and the href attributes of its anchor tags. -/
structure Page where
  title : Option String
  headings : List String
  codeBlocks : List CodeBlock
  fullText : String
  links : List String
deriving DecidableEq, Repr

/-- Title check of is_api_doc_page: `any(indicator in title.text.lower() for
indicator in api_indicators)`.  Note that the indicators themselves are NOT
lowercased by the code. -/
def titleHasIndicator (t : String) : Bool :=
  apiIndicators.any (fun ind => pyIn ind (pyLower t))

/-- APICrawler.is_api_doc_page (crawler.py 164-196): title check, then
heading check, then code-block-plus-full-text check; short-circuit
disjunction mirrors the early returns. -/
def is_api_doc_page (pg : Page) : Bool :=
  (match pg.title with
   | some t => titleHasIndicator t
   | none => false)
  || pg.headings.any (fun h => apiIndicators.any (fun ind => pyIn ind (pyLower h)))
  || (!pg.codeBlocks.isEmpty && apiIndicators.any (fun ind => pyIn ind (pyLower pg.fullText)))

/-! ## EndpointExtractor heuristic: APICrawler.extract_endpoint_info
(crawler.py 259-316) -/

/-- The method tokens scanned for, in the code's order (crawler.py 267). -/
def httpMethods : List String := ["GET", "POST", "PUT", "DELETE", "PATCH"]

/-- Python `description[:50] + '...' if len(description) > 50 else
description` (crawler.py 304). -/
def truncSummary (d : String) : String :=
  if d.length > 50 then String.mk (d.toList.take 50) ++ "..." else d

/-- Path parameters derived from brace-wrapped path segments (crawler.py
290-299). -/
def braceParams (path : String) : List Param :=
  ((pySplit (fun c => decide (c = '/')) path).filter
      (fun seg => pyIn "\x7b" seg && pyIn "\x7d" seg)).map
    (fun seg => Param.mk (pyStripBraces seg) "path" true (Schema.mk "string"))

/-- The endpoint dictionary returned by extract_endpoint_info (crawler.py
301-314).  The method is stored exactly as the matched uppercase token. -/
structure Endpoint where
  method : String
  path : String
  summary : String
  description : String
  parameters : List Param
  response : ResponseContent
deriving DecidableEq, Repr

/-- APICrawler.extract_endpoint_info: for the first method token contained
in the uppercased block text, for the first line containing that token
whose stripped whitespace split has at least two parts, take parts[1] with
any query string removed as the path and build the endpoint dictionary. -/
def extract_endpoint_info (cb : CodeBlock) : Option Endpoint :=
  httpMethods.findSome? (fun method =>
    if pyIn method (pyUpper cb.text) then
      (pySplit (fun c => decide (c = '\n')) cb.text).findSome? (fun line =>
        if pyIn method (pyUpper line) then
          let parts := pySplitWs (pyTrim line)
          if parts.length ≥ 2 then
            let path := stripQuery (parts.getD 1 "")
            let description := (cb.prevText.map pyTrim).getD ""
            some (Endpoint.mk method path (truncSummary description) description
              (braceParams path) (ResponseContent.mk "application/json" (Schema.mk "object")))
          else none
        else none)
    else none)

/-! ## AI extraction: APICrawler.parse_with_ai (crawler.py 318-446)

The Tongyi Qianwen client call is an external collaborator; its outcome is
an oracle input.  The message content's JSON-extraction outcome (find('{'),
rfind('}'), json.loads, the 'paths' membership test) is represented at the
outcome level, since json parsing of free text is a stdlib boundary. -/

/-- Exception classes the crawler's except clauses discriminate on. -/
inductive ExcKind where
  | clientError
  | timeoutError
  | otherError
deriving DecidableEq, Repr

/-- The parsed `arguments` of a function call, field accesses via
`fn_args.get(...)`; an absent key is `none`. -/
structure FnArgs where
  path : Option String
  method : Option String
  description : Option String
  parameters : List Param
  responseContentType : Option String
  responseSchema : Option Schema
deriving DecidableEq, Repr

/-- `message.function_call`: its name, and the result of
`json.loads(message.function_call.arguments)` (`none` when that raises
json.JSONDecodeError, which the inner except catches). -/
structure FunctionCall where
  name : String
  argumentsJson : Option FnArgs
deriving DecidableEq, Repr

/-- Outcome of the content-fallback parse of `message.content` (crawler.py
426-438): either the extracted JSON block is a dict containing 'paths'
(valid), or one of the failure shapes the code tolerates. -/
inductive AIContent where
  | noContent
  | noJsonBlock
  | invalidJson
  | notPathsDict
  | valid (frag : PathsMap)
deriving DecidableEq, Repr

/-- The message object of the first completion choice. -/
structure AIMessage where
  functionCall : Option FunctionCall
  content : AIContent
deriving DecidableEq, Repr

/-- Outcome of the whole client interaction inside the outer try of
parse_with_ai: either some exception is raised (client construction, the
completions.create call, ...) or a message object is obtained. -/
inductive AICall where
  | raises (k : ExcKind) (msg : String)
  | returns (m : AIMessage)
deriving DecidableEq, Repr

/-- The content-fallback branch (crawler.py 426-441): only a dict with
'paths' is returned; every failure shape ends in None (AttributeError /
IndexError / json.JSONDecodeError are caught, a missing JSON block or a
non-paths dict falls through to the implicit return None). -/
def contentFallback (c : AIContent) : Option PathsMap :=
  match c with
  | AIContent.valid f => some f
  | _ => none

/-- The spec built from valid function-call arguments (crawler.py 399-424). -/
def buildAISpec (args : FnArgs) (p meth : String) : PathsMap :=
  [(p, [(meth, Operation.mk (args.description.getD "") (args.description.getD "")
    args.parameters
    (ResponseContent.mk (args.responseContentType.getD "application/json")
      (args.responseSchema.getD (Schema.mk "object"))))])]

/-- APICrawler.parse_with_ai (crawler.py 318-446).  The outer
`except Exception as e: raise` re-raises every exception of the client
interaction (the `print`/`return None` after it are unreachable), so a
raising call produces an error.  A function call named extract_api_info
with truthy path and method yields the built spec; unparsable arguments
yield None via the inner except; everything else falls through to the
content fallback. -/
def parse_with_ai (call : AICall) : Except (ExcKind × String) (Option PathsMap) :=
  match call with
  | AICall.raises k msg => Except.error (k, msg)
  | AICall.returns m =>
    match m.functionCall with
    | some fc =>
      if fc.name = "extract_api_info" then
        match fc.argumentsJson with
        | none => Except.ok none
        | some args =>
          let p := args.path.getD ""
          let meth := pyLower (args.method.getD "")
          if p ≠ "" ∧ meth ≠ "" then Except.ok (some (buildAISpec args p meth))
          else Except.ok (contentFallback m.content)
      else Except.ok (contentFallback m.content)
    | none => Except.ok (contentFallback m.content)

/-! ## Fetch outcomes and parse_api_page (crawler.py 198-257) -/

/-- Outcome of `session.get(url)` for one URL: either an exception of the
given class is raised, or a response with status, content-type header and
(parsed) HTML page is obtained. -/
inductive Fetch where
  | raises (k : ExcKind) (msg : String)
  | resp (status : Nat) (contentType : String) (page : Page)
deriving DecidableEq, Repr

/-- APICrawler.parse_api_page (crawler.py 198-257).  The whole body sits in
a try whose except clause catches exactly aiohttp.ClientError and
asyncio.TimeoutError; any other exception (in particular one re-raised by
parse_with_ai) propagates.  The heuristic extraction is commented out in
the source: after the status check the page goes straight to
parse_with_ai, and the page content itself is not consulted. -/
def parse_api_page (f : Fetch) (ai : AICall) : Except (ExcKind × String) (Option PathsMap) :=
  match f with
  | Fetch.raises ExcKind.clientError _ => Except.ok none
  | Fetch.raises ExcKind.timeoutError _ => Except.ok none
  | Fetch.raises ExcKind.otherError msg => Except.error (ExcKind.otherError, msg)
  | Fetch.resp status _ _ =>
    if status ≠ 200 then Except.ok none
    else
      match parse_with_ai ai with
      | Except.error (ExcKind.clientError, _) => Except.ok none
      | Except.error (ExcKind.timeoutError, _) => Except.ok none
      | Except.error e => Except.error e
      | Except.ok r => Except.ok r

/-- Whether parse_api_page reaches the `parse_with_ai` call for a given
fetch outcome: it does exactly when the fetch returns and the status is
200 (crawler.py 205-226); nothing about the page's code blocks is
consulted, since the pattern-heuristic invocation is commented out. -/
def parse_api_page_invokes_ai (f : Fetch) : Bool :=
  match f with
  | Fetch.raises _ _ => false
  | Fetch.resp status _ _ => decide (status = 200)

/-! ## CrawlController: APICrawler.crawl_subpages / process_page
(crawler.py 76-162) -/

/-- The URL-library collaborators: urljoin(url, href) and
urlparse(u).netloc. -/
structure UrlLib where
  urljoin : String → String → String
  netloc : String → String

/-- APICrawler.process_page (crawler.py 118-162) for one URL.  Returns the
classification result (the url itself when classified, else none) and the
links it adds to the shared to_visit set: same-domain absolute URLs,
fragment-stripped, not already visited.  A transport error (or any other
exception, which asyncio.gather with return_exceptions=True turns into a
non-string result) contributes no links and no classification. -/
def process_page (lib : UrlLib) (world : String → Fetch) (visited : List String)
    (baseDomain : String) (url : String) : Option String × List String :=
  match world url with
  | Fetch.raises _ _ => (none, [])
  | Fetch.resp status ct pg =>
    if status ≠ 200 then (none, [])
    else if !(pyIn "text/html" (pyLower ct)) then (none, [])
    else
      let toAdd := (pg.links.map (fun href => stripFragment (lib.urljoin url href))).filter
        (fun au => lib.netloc au = baseDomain && !(lmem au visited))
      (if is_api_doc_page pg then some url else none, toAdd)

/-- Python-set insertion into the to_visit set, insertion order kept. -/
def setAdd (s : List String) (x : String) : List String :=
  if lmem x s then s else s ++ [x]

/-- Add every discovered link of one round to to_visit. -/
def setAddAll (s : List String) (xs : List String) : List String :=
  xs.foldl setAdd s

/-- The pre-gather loop of one round (crawler.py 91-95): for each current
URL not yet visited, mark it visited and schedule it; returns (visited set
after all additions, tasks in schedule order).  All additions happen
before any task runs. -/
def gatherTasks (visited current : List String) : List String × List String :=
  current.foldl
    (fun acc url => if lmem url acc.1 then acc else (acc.1 ++ [url], acc.2 ++ [url]))
    (visited, [])

/-- Python truthiness test `self.max_urls and len(api_doc_urls) >=
self.max_urls` (crawler.py 111, 113): None and 0 are falsy. -/
def pyBound (m : Option Nat) (len : Nat) : Bool :=
  match m with
  | none => false
  | some n => decide (n ≠ 0) && decide (n ≤ len)

/-- The per-round result loop (crawler.py 101-112).  A non-string or empty
result is skipped without a bound check; a result already present falls
through to the bound check; a result whose fragment-stripped form is
already present is skipped by `continue` (no bound check); otherwise the
original result string is appended and the bound is checked. -/
def processResults (m : Option Nat) (apiDocs : List String) :
    List (Option String) → List String
  | [] => apiDocs
  | none :: rest => processResults m apiDocs rest
  | some r :: rest =>
    if r = "" then processResults m apiDocs rest
    else if lmem r apiDocs then
      (if pyBound m apiDocs.length then apiDocs else processResults m apiDocs rest)
    else if lmem (stripFragment r) apiDocs then processResults m apiDocs rest
    else
      if pyBound m (apiDocs ++ [r]).length then apiDocs ++ [r]
      else processResults m (apiDocs ++ [r]) rest

/-- The while-loop of crawl_subpages (crawler.py 86-114), with explicit
fuel (the Python loop terminates because visited grows; fuel makes the
recursion structural, and every claim is stated for arbitrary fuel).
A mid-round break implies the after-round bound check fires, so the
continue condition is the single after-round check. -/
def crawlLoop (lib : UrlLib) (world : String → Fetch) (baseDomain : String) (m : Option Nat) :
    Nat → List String → List String → List String → List String
  | 0, _, _, apiDocs => apiDocs
  | Nat.succ fuel, toVisit, visited, apiDocs =>
    if toVisit.isEmpty then apiDocs
    else
      let vt := gatherTasks visited toVisit
      let outs := vt.2.map (process_page lib world vt.1 baseDomain)
      let nextToVisit := outs.foldl (fun acc o => setAddAll acc o.2) []
      let apiDocs2 := processResults m apiDocs (outs.map Prod.fst)
      if pyBound m apiDocs2.length then apiDocs2
      else crawlLoop lib world baseDomain m fuel nextToVisit vt.1 apiDocs2

/-- APICrawler.crawl_subpages (crawler.py 76-116): the result list is
seeded with the base URL before any fetch, to_visit starts as {base}, and
visited starts empty. -/
def crawl_subpages (lib : UrlLib) (world : String → Fetch) (base : String)
    (m : Option Nat) (fuel : Nat) : List String :=
  crawlLoop lib world (lib.netloc base) m fuel [base] [] [base]

/-! ## SpecSynthesizer: APICrawler.combine_specs (crawler.py 448-490)

combine_specs stores *references* to the fragments' operation dicts in
combined_paths and appends parameters into them in place
(`existing_op.setdefault('parameters', []).append(param)` mutates the
stored fragment).  The heap of fragments is threaded explicitly: an OpRef
identifies the operation object inside fragment `frag` at `path`/`method`,
and the final document dereferences the refs against the post-merge heap.
Iteration is over the original fragment list: a fragment is only ever
mutated by a strictly later fragment's merge (path and method keys are
unique inside one fragment), so the live dict iteration of the Python code
sees exactly the original items. -/

/-- A reference to the operation dict stored in fragment `frag` under
`path` and `method`. -/
structure OpRef where
  frag : Nat
  path : String
  method : String
deriving DecidableEq, Repr

/-- combined_paths: path to (method to operation reference), insertion
ordered. -/
abbrev Combined := List (String × List (String × OpRef))

/-- Parameter identity for the merge: `(p.get('name', ''), p.get('in', ''))`
(crawler.py 470, 474). -/
def paramKey (p : Param) : String × String :=
  (p.name, p.loc)

/-- Membership of a parameter key in the frozen existing_params set. -/
def hasKey (ks : List (String × String)) (k : String × String) : Bool :=
  ks.any (fun x => decide (x = k))

/-- Placeholder operation for dereferencing (never reached on refs the
merge actually creates). -/
def defaultOp : Operation :=
  Operation.mk "" "" [] (ResponseContent.mk "" (Schema.mk ""))

/-- Dereference an operation reference against the fragment heap. -/
def getOp (h : List PathsMap) (r : OpRef) : Operation :=
  (lookup2 (h.getD r.frag []) r.path r.method).getD defaultOp

/-- Replace an operation's parameter list (the in-place
`existing_op['parameters']` update). -/
def setOpParams (op : Operation) (ps : List Param) : Operation :=
  Operation.mk op.summary op.description ps op.response

/-- Append fresh parameters into the operation the reference points at,
inside the fragment heap (the in-place list append of crawler.py 476). -/
def mutateOp (h : List PathsMap) (r : OpRef) (fresh : List Param) : List PathsMap :=
  h.set r.frag ((h.getD r.frag []).map (fun pe =>
    if pe.1 = r.path then
      (pe.1, pe.2.map (fun me =>
        if me.1 = r.method then (me.1, setOpParams me.2 (me.2.parameters ++ fresh)) else me))
    else pe))

/-- The per-method merge step (crawler.py 464-479): an existing method
merges parameter lists against the frozen key set of the existing
operation's current parameters; a new method stores a reference to the
incoming fragment's operation. -/
def mergeOne (i : Nat) (p m : String) (op : Operation)
    (st : List PathsMap × Combined) : List PathsMap × Combined :=
  let ms := (alookup p st.2).getD []
  match alookup m ms with
  | some r =>
    let exOp := getOp st.1 r
    let exKeys := exOp.parameters.map paramKey
    let fresh := op.parameters.filter (fun q => !(hasKey exKeys (paramKey q)))
    (mutateOp st.1 r fresh, st.2)
  | none => (st.1, aupdate p (aupdate m (OpRef.mk i p m) ms) st.2)

/-- The guard `if path not in combined_paths: combined_paths[path] = {}`
(crawler.py 460-461). -/
def ensurePath (p : String) (c : Combined) : Combined :=
  if (alookup p c).isSome then c else aupdate p [] c

/-- One path entry of a fragment (crawler.py 459-479): ensure the path key
exists, then merge each method. -/
def mergePathEntry (i : Nat) (pe : String × Methods)
    (st : List PathsMap × Combined) : List PathsMap × Combined :=
  pe.2.foldl (fun s me => mergeOne i pe.1 me.1 me.2 s) (st.1, ensurePath pe.1 st.2)

/-- Merge one whole fragment into the state. -/
def combineFrag (i : Nat) (f : PathsMap) (st : List PathsMap × Combined) :
    List PathsMap × Combined :=
  f.foldl (fun s pe => mergePathEntry i pe s) st

/-- Merge all fragments in order (`for spec in self.api_docs.values()`),
threading the mutable heap. -/
def combineGo (i : Nat) : List PathsMap → (List PathsMap × Combined) → List PathsMap × Combined
  | [], st => st
  | f :: rest, st => combineGo (i + 1) rest (combineFrag i f st)

/-- Dereference a combined methods dict against the final heap. -/
def derefMethods (h : List PathsMap) (ms : List (String × OpRef)) : Methods :=
  ms.map (fun me => (me.1, getOp h me.2))

/-- Dereference the whole combined_paths structure. -/
def derefPaths (h : List PathsMap) (c : Combined) : PathsMap :=
  c.map (fun pe => (pe.1, derefMethods h pe.2))

/-- APICrawler.combine_specs (crawler.py 448-490): returns the final
document and the post-merge fragment heap (the fragments as they stand
after the in-place parameter appends). -/
def combine_specs (baseUrl : String) (frags : List PathsMap) : SpecDoc × List PathsMap :=
  let st := combineGo 0 frags (frags, [])
  (SpecDoc.mk "3.0.0"
    (SpecInfo.mk "API Documentation" "1.0.0" ("API documentation crawled from " ++ baseUrl))
    (derefPaths st.1 st.2), st.1)

/-- A one-path one-method fragment, the shape parse_with_ai builds. -/
def fragOf (p m : String) (op : Operation) : PathsMap :=
  [(p, [(m, op)])]

/-- The parameters of `b` that survive the frozen-set filter against `a`'s
parameter keys (crawler.py 469-476). -/
def freshParams (a b : Operation) : List Param :=
  b.parameters.filter (fun q => !(hasKey (a.parameters.map paramKey) (paramKey q)))

/-- Index (absolute, starting at i) of the first fragment in the list that
defines path p with method m. -/
def firstFragIdx (p m : String) : Nat → List PathsMap → Option Nat
  | _, [] => none
  | i, f :: rest =>
    if (lookup2 f p m).isSome then some i else firstFragIdx p m (i + 1) rest

/-! ## The crawl driver: APICrawler.crawl (crawler.py 492-509) -/

/-- The fragment-collection loop of crawl: for each classified URL in
order, keep the fragment parse_api_page yields, propagating any exception
it raises (`if spec := await self.parse_api_page(url)` has no handler). -/
def storeFrags (world : String → Fetch) (aiw : String → AICall) :
    List String → Except (ExcKind × String) (List PathsMap)
  | [] => Except.ok []
  | u :: rest =>
    match parse_api_page (world u) (aiw u) with
    | Except.error e => Except.error e
    | Except.ok none => storeFrags world aiw rest
    | Except.ok (some s) => (storeFrags world aiw rest).map (fun l => s :: l)

/-- APICrawler.crawl: crawl_subpages, then parse each classified URL, then
combine_specs.  (The find_openapi_json shortcut is commented out in the
source.) -/
def crawl (lib : UrlLib) (world : String → Fetch) (aiw : String → AICall)
    (base : String) (m : Option Nat) (fuel : Nat) : Except (ExcKind × String) SpecDoc :=
  (storeFrags world aiw (crawl_subpages lib world base m fuel)).map
    (fun frags => (combine_specs base frags).1)

/-! ## Equivalence of produced documents (Python `==` on the dicts)

Python dict equality is order-insensitive on keys and recursive on values;
list values (parameter lists) compare element-wise in order.  For the
key-unique dicts the code builds, that is exactly lookup-extensional
equality. -/

/-- Python `==` on two methods dicts (operations compare structurally). -/
def MethodsEquiv (a b : Methods) : Prop :=
  ∀ m : String, alookup m a = alookup m b

/-- Python `==` on two paths dicts. -/
def PathsEquiv (x y : PathsMap) : Prop :=
  ∀ p : String,
    ((alookup p x).isSome = (alookup p y).isSome) ∧
    (∀ a b, alookup p x = some a → alookup p y = some b → MethodsEquiv a b)

/-- Python `==` on two final documents. -/
def SpecDocEquiv (d e : SpecDoc) : Prop :=
  d.openapi = e.openapi ∧ d.info = e.info ∧ PathsEquiv d.paths e.paths

/-! ## Well-formedness and disjointness of fragments -/

/-- A fragment as a Python dict-of-dicts necessarily has unique path keys
and, per path, unique method keys. -/
def PathsWF (f : PathsMap) : Prop :=
  (f.map Prod.fst).Nodup ∧ ∀ pe ∈ f, (pe.2.map Prod.fst).Nodup

/-- No path+method defined by f is also defined by g (bounded over f's
entries, hence decidable). -/
def FragsDisjoint (f g : PathsMap) : Prop :=
  ∀ pe ∈ f, ∀ me ∈ pe.2, lookup2 g pe.1 me.1 = none

instance (f g : PathsMap) : Decidable (FragsDisjoint f g) := by
  unfold FragsDisjoint; infer_instance

instance (f : PathsMap) : Decidable (PathsWF f) := by
  unfold PathsWF; infer_instance

/-! ## Concrete fixtures for counterexamples and witnesses -/

/-- An isolated page: no title, no headings, no code blocks, no text, no
links. -/
def pgEmpty : Page :=
  Page.mk none [] [] "" []

/-- A page whose title is exactly the vocabulary phrase API文档. -/
def pgChineseTitle : Page :=
  Page.mk (some "API文档") [] [] "" []

/-- A page carrying a code block from which the pattern heuristic extracts
an endpoint. -/
def pgWithEndpoint : Page :=
  Page.mk (some "API Reference") [] [CodeBlock.mk "GET /users/{id}" none] "GET /users/{id}" []

/-- A trivial URL library: hrefs are already absolute, and every URL is on
the single domain "example.com". -/
def libFlat : UrlLib :=
  UrlLib.mk (fun _ href => href) (fun _ => "example.com")

/-- The base URL of the concrete worlds. -/
def baseUrl0 : String := "https://example.com"

/-- World for claim C4: the base URL is an isolated HTML page with no
outbound links and no API indicators; nothing else is reachable. -/
def worldIsolated : String → Fetch :=
  fun u => if u = baseUrl0 then Fetch.resp 200 "text/html" pgEmpty
           else Fetch.raises ExcKind.clientError "unreachable"

/-- A classified documentation page with several same-domain links. -/
def pgHub : Page :=
  Page.mk (some "API Reference") [] [] ""
    ["https://example.com/a", "https://example.com/b", "https://example.com/c",
     "https://example.com/d"]

/-- A classified documentation page without links. -/
def pgLeafDoc : Page :=
  Page.mk (some "API Reference") [] [] "" []

/-- World for claim C8: five same-domain pages all classified as
documentation. -/
def worldFive : String → Fetch :=
  fun u => if u = baseUrl0 then Fetch.resp 200 "text/html" pgHub
           else Fetch.resp 200 "text/html" pgLeafDoc

/-- AI collaborator that raises an unhandled (non-aiohttp, non-asyncio)
exception, e.g. an openai authentication failure. -/
def aiRaises : String → AICall :=
  fun _ => AICall.raises ExcKind.otherError "AuthenticationError"

/-- AI collaborator that returns a message with no function call and no
JSON block in its content: extraction yields nothing. -/
def aiNothing : String → AICall :=
  fun _ => AICall.returns (AIMessage.mk none AIContent.noJsonBlock)

/-- Sample parameters with distinct (name, in) identities. -/
def paramA : Param := Param.mk "a" "query" true (Schema.mk "string")

/-- Second sample parameter. -/
def paramB : Param := Param.mk "b" "query" false (Schema.mk "string")

/-- Sample response content. -/
def respJson : ResponseContent := ResponseContent.mk "application/json" (Schema.mk "object")

/-- Operation carrying parameter a. -/
def opA : Operation := Operation.mk "s" "d" [paramA] respJson

/-- Operation carrying parameter b. -/
def opB : Operation := Operation.mk "s" "d" [paramB] respJson

/-- Operation carrying parameter b twice (an internally duplicated
parameter list, as an unvalidated AI fragment can contain). -/
def opBB : Operation := Operation.mk "s" "d" [paramB, paramB] respJson

/-- Fragment A of the merge counterexamples. -/
def fragA : PathsMap := fragOf "/x" "get" opA

/-- Fragment B of the merge counterexamples. -/
def fragB : PathsMap := fragOf "/x" "get" opB

/-- Fragment on a disjoint path+method pair. -/
def fragC : PathsMap := fragOf "/y" "post" opB

/-! ## Theorems -/

/-- C1: claim says an AI-collaborator failure yields no fragment and no
exception past parse_api_page.  The code re-raises (`except Exception as
e: raise` in parse_with_ai, its `return None` unreachable), and
parse_api_page catches only aiohttp.ClientError and asyncio.TimeoutError,
so an AI-client exception escapes parse_api_page and aborts the crawl:
here a page fetched with status 200 whose AI call raises produces an
error from parse_api_page and from the whole crawl. -/
theorem C1_ai_failure_propagates :
    parse_api_page (Fetch.resp 200 "text/html" pgEmpty)
        (AICall.raises ExcKind.otherError "AuthenticationError")
      = Except.error (ExcKind.otherError, "AuthenticationError")
    ∧ crawl libFlat worldIsolated aiRaises baseUrl0 none 3
      = Except.error (ExcKind.otherError, "AuthenticationError") := by
  exact ⟨rfl, rfl⟩

/-- C6: claim says a title containing any indicator phrase
(case-insensitively) classifies the page as documentation.  The code
lowercases the title but not the indicators, so the vocabulary phrase
API文档 (which contains uppercase ASCII) can never match: a page whose
title is exactly that phrase is not classified. -/
theorem C6_title_indicator_missed :
    "API文档" ∈ apiIndicators
    ∧ pgChineseTitle.title = some "API文档"
    ∧ pyIn (pyLower "API文档") (pyLower "API文档") = true
    ∧ is_api_doc_page pgChineseTitle = false := by
  exact ⟨by decide, by decide, by decide, by decide⟩

/-- C9 counterexample: extraction takes parts[1], the second
whitespace-delimited token of the matching line, not the token after the
method: on the line `foo GET /users?x=1` the extracted path is `GET`, not
`/users`.  Moreover the stored method is the uppercase token `GET`, not
`get` (the lowercasing lived only in the commented-out fragment
conversion). -/
theorem C9_counterexample :
    (extract_endpoint_info (CodeBlock.mk "foo GET /users?x=1" none)).map Endpoint.path
      = some "GET"
    ∧ (extract_endpoint_info (CodeBlock.mk "foo GET /users?x=1" none)).map Endpoint.path
      ≠ some "/users"
    ∧ (extract_endpoint_info (CodeBlock.mk "GET /users/{id}" none)).map Endpoint.method
      = some "GET"
    ∧ (extract_endpoint_info (CodeBlock.mk "GET /users/{id}" none)).map Endpoint.method
      ≠ some "get" := by
  exact ⟨by decide, by decide, by decide, by decide⟩

/-- C9 amended: a code block containing `GET /users/{id}` yields path
`/users/{id}`, method `GET` (the uppercase token), empty summary and
description, one required path parameter named id with a string schema,
and the fixed application/json object response. -/
theorem C9_extraction_scenario :
    extract_endpoint_info (CodeBlock.mk "GET /users/{id}" none)
      = some (Endpoint.mk "GET" "/users/{id}" "" ""
          [Param.mk "id" "path" true (Schema.mk "string")]
          (ResponseContent.mk "application/json" (Schema.mk "object"))) := by
  decide

/-- C3 counterexample: a classified page whose code block yields an
endpoint under the pattern heuristic still has the AI extractor invoked
(the heuristic call is commented out in parse_api_page), contradicting
"invoked only when the pattern heuristic yields no endpoint". -/
theorem C3_counterexample :
    (extract_endpoint_info (CodeBlock.mk "GET /users/{id}" none)).isSome = true
    ∧ pgWithEndpoint.codeBlocks = [CodeBlock.mk "GET /users/{id}" none]
    ∧ parse_api_page_invokes_ai (Fetch.resp 200 "text/html" pgWithEndpoint) = true := by
  exact ⟨by decide, by decide, by decide⟩

/-- C3 amended: extraction is AI-only: for every successfully fetched
page the AI extractor is invoked (status 200), and the extraction result
does not depend on the page content at all, in particular not on whether
its code blocks would satisfy the (never invoked) pattern heuristic. -/
theorem C3_ai_only_extraction :
    ∀ (status : Nat) (ct1 ct2 : String) (pg1 pg2 : Page) (ai : AICall),
      parse_api_page (Fetch.resp status ct1 pg1) ai
        = parse_api_page (Fetch.resp status ct2 pg2) ai
      ∧ parse_api_page_invokes_ai (Fetch.resp 200 ct1 pg1) = true := by
  intro status ct1 ct2 pg1 pg2 ai
  exact ⟨rfl, rfl⟩

/-- C4 counterexample: for a base URL that is an isolated page (fetches as
HTML, no outbound links, no API indicators) the classified-URL list is not
empty: it is the singleton [base URL], because crawl_subpages seeds its
result list with the base URL unconditionally. -/
theorem C4_counterexample :
    worldIsolated baseUrl0 = Fetch.resp 200 "text/html" pgEmpty
    ∧ pgEmpty.links = []
    ∧ is_api_doc_page pgEmpty = false
    ∧ crawl_subpages libFlat worldIsolated baseUrl0 none 3 = [baseUrl0]
    ∧ crawl_subpages libFlat worldIsolated baseUrl0 none 3 ≠ [] := by
  exact ⟨by decide, by decide, by decide, by decide, by decide⟩

/-- C2 counterexample: merging [A, B] and [B, A] yields different
documents even for operations differing only in their parameter lists:
the merged parameter list is ordered ([a, b] versus [b, a]), and Python
list equality is order-sensitive, so the two documents are not equal. -/
theorem C2_counterexample :
    lookup2 (combine_specs "u" [fragA, fragB]).1.paths "/x" "get"
      = some (Operation.mk "s" "d" [paramA, paramB] respJson)
    ∧ lookup2 (combine_specs "u" [fragB, fragA]).1.paths "/x" "get"
      = some (Operation.mk "s" "d" [paramB, paramA] respJson)
    ∧ ¬ SpecDocEquiv (combine_specs "u" [fragA, fragB]).1
        (combine_specs "u" [fragB, fragA]).1 := by
  refine ⟨by decide, by decide, ?_⟩
  intro h
  have h2 := (h.2.2 "/x").2
    [("get", Operation.mk "s" "d" [paramA, paramB] respJson)]
    [("get", Operation.mk "s" "d" [paramB, paramA] respJson)]
    (by decide) (by decide) "get"
  exact absurd h2 (by decide)

/-- C5 counterexample: combine_specs mutates its input fragments: after
merging [A, B] with a shared path+method, the stored fragment A has B's
new parameter appended in place, so the post-merge fragment collection
differs from the input collection. -/
theorem C5_counterexample :
    (combine_specs "u" [fragA, fragB]).2
      = [fragOf "/x" "get" (Operation.mk "s" "d" [paramA, paramB] respJson), fragB]
    ∧ (combine_specs "u" [fragA, fragB]).2 ≠ [fragA, fragB] := by
  exact ⟨by decide, by decide⟩

/-- C7 counterexample: with disjoint (name, in) pairs between the two
lists, the merged list can still contain a duplicate pair, because the
incoming list is filtered against a set frozen before the appends: an
incoming list that itself repeats a pair is appended twice. -/
theorem C7_counterexample :
    lookup2 (combine_specs "u" [fragA, fragOf "/x" "get" opBB]).1.paths "/x" "get"
      = some (Operation.mk "s" "d" [paramA, paramB, paramB] respJson)
    ∧ (∀ q ∈ opBB.parameters, ¬ paramKey q ∈ opA.parameters.map paramKey)
    ∧ ¬ ((Operation.mk "s" "d" [paramA, paramB, paramB] respJson).parameters.map paramKey).Nodup := by
  exact ⟨by decide, by decide, by decide⟩

/-! ## Association-list lemmas -/

/-- Lookup after a dict assignment: the assigned key reads the new value,
every other key is untouched. -/
theorem alookup_aupdate {α : Type} (k2 k : String) (v : α) (l : List (String × α)) :
    alookup k (aupdate k2 v l) = if k2 = k then some v else alookup k l := by
  induction l with
  | nil => simp [aupdate, alookup]
  | cons e rest ih =>
    by_cases h1 : e.1 = k2
    · simp only [aupdate, if_pos h1, alookup]
      by_cases h2 : k2 = k
      · simp [h2]
      · have h3 : e.1 ≠ k := by rw [h1]; exact h2
        simp [h2, h3]
    · simp only [aupdate, if_neg h1, alookup, ih]
      by_cases h2 : e.1 = k
      · have h3 : k2 ≠ k := fun hh => h1 (by rw [h2, hh])
        simp [h2, h3]
      · simp [h2]

/-- A successful lookup is a member of the list. -/
theorem alookup_mem {α : Type} {k : String} {v : α} :
    ∀ {l : List (String × α)}, alookup k l = some v → (k, v) ∈ l := by
  intro l
  induction l with
  | nil => intro h; simp [alookup] at h
  | cons e rest ih =>
    intro h
    by_cases h1 : e.1 = k
    · simp only [alookup, if_pos h1] at h
      cases e with
      | mk a b =>
        simp only at h1
        cases h
        rw [h1]
        exact List.mem_cons_self _ _
    · simp only [alookup, if_neg h1] at h
      exact List.mem_cons_of_mem _ (ih h)

/-- Under unique keys a member is found by lookup. -/
theorem mem_alookup {α : Type} {k : String} {v : α} :
    ∀ {l : List (String × α)}, (l.map Prod.fst).Nodup → (k, v) ∈ l → alookup k l = some v := by
  intro l
  induction l with
  | nil => intro _ h; simp at h
  | cons e rest ih =>
    intro nd h
    rcases List.mem_cons.mp h with h1 | h1
    · rw [← h1]
      simp [alookup]
    · have h2 : e.1 ≠ k := by
        intro he
        have : k ∈ rest.map Prod.fst := by
          exact List.mem_map.mpr ⟨(k, v), h1, rfl⟩
        rw [List.map_cons, List.nodup_cons] at nd
        exact nd.1 (he ▸ this)
      simp only [alookup, if_neg h2]
      exact ih (by rw [List.map_cons, List.nodup_cons] at nd; exact nd.2) h1

/-- A key absent from the key list looks up to none. -/
theorem alookup_eq_none {α : Type} {k : String} :
    ∀ {l : List (String × α)}, k ∉ l.map Prod.fst → alookup k l = none := by
  intro l
  induction l with
  | nil => intro _; rfl
  | cons e rest ih =>
    intro h
    have h1 : e.1 ≠ k := fun he => h (by simp [he])
    simp only [alookup, if_neg h1]
    exact ih (fun hm => h (by simp [hm]))

/-- Lookup succeeds exactly on present keys. -/
theorem alookup_isSome_iff {α : Type} (k : String) :
    ∀ (l : List (String × α)), (alookup k l).isSome = true ↔ k ∈ l.map Prod.fst := by
  intro l
  induction l with
  | nil => simp [alookup]
  | cons e rest ih =>
    by_cases h1 : e.1 = k
    · simp [alookup, h1]
    · simp [alookup, h1, ih, Ne.symm h1]

/-! ## Dereferencing lemmas -/

/-- Path lookup commutes with dereferencing. -/
theorem alookup_derefPaths (h : List PathsMap) (c : Combined) (p : String) :
    alookup p (derefPaths h c) = (alookup p c).map (derefMethods h) := by
  induction c with
  | nil => rfl
  | cons pe rest ih =>
    by_cases h1 : pe.1 = p
    · simp [derefPaths, alookup, h1]
    · simp only [derefPaths, alookup, if_neg h1] at ih ⊢
      exact ih

/-- Method lookup commutes with dereferencing. -/
theorem alookup_derefMethods (h : List PathsMap) (ms : List (String × OpRef)) (m : String) :
    alookup m (derefMethods h ms) = (alookup m ms).map (getOp h) := by
  induction ms with
  | nil => rfl
  | cons me rest ih =>
    by_cases h1 : me.1 = m
    · simp [derefMethods, alookup, h1]
    · simp only [derefMethods, alookup, if_neg h1] at ih ⊢
      exact ih

/-- Two-level lookup of the dereferenced structure resolves the stored
reference against the heap. -/
theorem lookup2_derefPaths (hp : List PathsMap) (c : Combined) (p m : String) :
    lookup2 (derefPaths hp c) p m = (lookup2 c p m).map (getOp hp) := by
  unfold lookup2
  rw [alookup_derefPaths]
  cases alookup p c with
  | none => rfl
  | some ms => simp [alookup_derefMethods]

/-! ## Fresh-merge characterization -/

/-- ensurePath does not change any two-level lookup. -/
theorem lookup2_ensurePath (p1 : String) (c : Combined) (p m : String) :
    lookup2 (ensurePath p1 c) p m = lookup2 c p m := by
  unfold ensurePath
  by_cases h1 : (alookup p1 c).isSome = true
  · rw [if_pos h1]
  · rw [if_neg h1]
    unfold lookup2
    rw [alookup_aupdate]
    by_cases h2 : p1 = p
    · rw [if_pos h2, ← h2]
      rw [Option.not_isSome_iff_eq_none] at h1
      rw [h1]
      rfl
    · rw [if_neg h2]

/-- ensurePath makes exactly its path present. -/
theorem isSome_ensurePath (p1 : String) (c : Combined) (p : String) :
    (alookup p (ensurePath p1 c)).isSome = true ↔ p1 = p ∨ (alookup p c).isSome = true := by
  unfold ensurePath
  by_cases h1 : (alookup p1 c).isSome = true
  · rw [if_pos h1]
    constructor
    · intro h; exact Or.inr h
    · intro h
      rcases h with h | h
      · rw [← h]; exact h1
      · exact h
  · rw [if_neg h1]
    rw [alookup_aupdate]
    by_cases h2 : p1 = p
    · simp [h2]
    · simp [h2]

/-- A fresh mergeOne (the path+method pair is not yet combined) stores a
reference and leaves the heap alone. -/
theorem mergeOne_fresh (i : Nat) (p0 m0 : String) (op : Operation) (h : List PathsMap)
    (c : Combined) (hf : lookup2 c p0 m0 = none) :
    mergeOne i p0 m0 op (h, c)
      = (h, aupdate p0 (aupdate m0 (OpRef.mk i p0 m0) ((alookup p0 c).getD [])) c) := by
  unfold mergeOne
  cases hc : alookup p0 c with
  | none => simp [hc, alookup]
  | some ms =>
    have h2 : alookup m0 ms = none := by
      unfold lookup2 at hf
      rw [hc] at hf
      simpa using hf
    simp [hc, h2]

/-- Lookup characterization of the fresh-insertion shape produced by
mergeOne. -/
theorem lookup2_freshInsert (i : Nat) (p0 m0 : String) (c : Combined) (p m : String) :
    lookup2 (aupdate p0 (aupdate m0 (OpRef.mk i p0 m0) ((alookup p0 c).getD [])) c) p m
      = if p = p0 ∧ m = m0 then some (OpRef.mk i p0 m0) else lookup2 c p m := by
  unfold lookup2
  rw [alookup_aupdate]
  by_cases h1 : p0 = p
  · rw [if_pos h1, Option.some_bind, alookup_aupdate]
    by_cases h2 : m0 = m
    · rw [if_pos h2, if_pos ⟨h1.symm, h2.symm⟩]
    · rw [if_neg h2, if_neg (fun hc2 => h2 hc2.2.symm), ← h1]
      cases hc : alookup p0 c with
      | none => simp [hc, alookup]
      | some ms => simp [hc]
  · rw [if_neg h1, if_neg (fun hc2 => h1 hc2.1.symm)]

/-- Path presence of the fresh-insertion shape produced by mergeOne. -/
theorem isSome_freshInsert (i : Nat) (p0 m0 : String) (c : Combined) (p : String) :
    (alookup p (aupdate p0 (aupdate m0 (OpRef.mk i p0 m0) ((alookup p0 c).getD [])) c)).isSome
        = true
      ↔ p = p0 ∨ (alookup p c).isSome = true := by
  rw [alookup_aupdate]
  by_cases h1 : p0 = p
  · simp [h1]
  · rw [if_neg h1]
    constructor
    · intro hc2; exact Or.inr hc2
    · intro hc2
      rcases hc2 with hc2 | hc2
      · exact absurd hc2.symm h1
      · exact hc2

/-- Heap preservation of a fresh mergeOne. -/
theorem fst_mergeOne_fresh (i : Nat) (p0 m0 : String) (op : Operation)
    (h : List PathsMap) (c : Combined) (hf : lookup2 c p0 m0 = none) :
    (mergeOne i p0 m0 op (h, c)).1 = h := by
  rw [mergeOne_fresh i p0 m0 op h c hf]

/-- Characterization of the inner method fold of mergePathEntry when every
method of the entry is fresh in the combined structure: the heap is
untouched, the entry's methods become references, and everything else is
unchanged. -/
theorem foldl_mergeOne_fresh (i : Nat) (p0 : String) :
    ∀ (es : List (String × Operation)) (h : List PathsMap) (c : Combined),
    (∀ me ∈ es, lookup2 c p0 me.1 = none) →
    (es.map Prod.fst).Nodup →
    (es.foldl (fun s me => mergeOne i p0 me.1 me.2 s) (h, c)).1 = h
    ∧ (∀ p m, lookup2 (es.foldl (fun s me => mergeOne i p0 me.1 me.2 s) (h, c)).2 p m
        = if p = p0 ∧ (alookup m es).isSome = true then some (OpRef.mk i p0 m)
          else lookup2 c p m)
    ∧ (∀ p, (alookup p (es.foldl (fun s me => mergeOne i p0 me.1 me.2 s) (h, c)).2).isSome = true
        ↔ (es ≠ [] ∧ p = p0) ∨ (alookup p c).isSome = true) := by
  intro es
  induction es with
  | nil =>
    intro h c _ _
    refine ⟨rfl, ?_, ?_⟩
    · intro p m
      simp [alookup]
    · intro p
      simp
  | cons me rest ih =>
    intro h c hfresh hnd
    have hf0 : lookup2 c p0 me.1 = none := hfresh me (List.mem_cons_self _ _)
    have hstep := mergeOne_fresh i p0 me.1 me.2 h c hf0
    have hL := lookup2_freshInsert i p0 me.1 c
    have hS := isSome_freshInsert i p0 me.1 c
    rw [List.foldl_cons, hstep]
    have hndr : (rest.map Prod.fst).Nodup := by
      rw [List.map_cons, List.nodup_cons] at hnd
      exact hnd.2
    have hme_notin : me.1 ∉ rest.map Prod.fst := by
      rw [List.map_cons, List.nodup_cons] at hnd
      exact hnd.1
    have hfr : ∀ x ∈ rest,
        lookup2 (aupdate p0 (aupdate me.1 (OpRef.mk i p0 me.1)
          ((alookup p0 c).getD [])) c) p0 x.1 = none := by
      intro x hx
      rw [hL]
      have hx1 : x.1 ≠ me.1 := by
        intro he
        exact hme_notin (he ▸ List.mem_map.mpr ⟨x, hx, rfl⟩)
      rw [if_neg (fun hc2 => hx1 hc2.2)]
      exact hfresh x (List.mem_cons_of_mem _ hx)
    obtain ⟨ih1, ih2, ih3⟩ := ih h
      (aupdate p0 (aupdate me.1 (OpRef.mk i p0 me.1) ((alookup p0 c).getD [])) c) hfr hndr
    refine ⟨ih1, ?_, ?_⟩
    · intro p m
      rw [ih2 p m, hL p m]
      by_cases hp : p = p0
      · subst hp
        by_cases hm : me.1 = m
        · by_cases hr : (alookup m rest).isSome = true
          · rw [if_pos ⟨rfl, hr⟩, if_pos ⟨rfl, by simp [alookup, hm]⟩]
          · rw [if_neg (fun hc2 => hr hc2.2), if_pos ⟨rfl, hm.symm⟩,
              if_pos ⟨rfl, by simp [alookup, hm]⟩, hm]
        · by_cases hr : (alookup m rest).isSome = true
          · rw [if_pos ⟨rfl, hr⟩, if_pos ⟨rfl, by simp [alookup, hm, hr]⟩]
          · rw [if_neg (fun hc2 => hr hc2.2), if_neg (fun hc2 => hm hc2.2.symm),
              if_neg (fun hc2 => by
                have := hc2.2
                simp only [alookup, if_neg hm] at this
                exact hr this)]
      · rw [if_neg (fun hc2 => hp hc2.1), if_neg (fun hc2 => hp hc2.1),
          if_neg (fun hc2 => hp hc2.1)]
    · intro p
      rw [ih3 p, hS p]
      constructor
      · intro hc2
        rcases hc2 with hc2 | hc2 | hc2
        · exact Or.inl ⟨List.cons_ne_nil _ _, hc2.2⟩
        · exact Or.inl ⟨List.cons_ne_nil _ _, hc2⟩
        · exact Or.inr hc2
      · intro hc2
        rcases hc2 with hc2 | hc2
        · exact Or.inr (Or.inl hc2.2)
        · exact Or.inr (Or.inr hc2)

/-- Characterization of mergePathEntry on a fresh, key-unique path entry. -/
theorem mergePathEntry_fresh (i : Nat) (pe : String × Methods) (h : List PathsMap)
    (c : Combined)
    (hfresh : ∀ me ∈ pe.2, lookup2 c pe.1 me.1 = none)
    (hnd : (pe.2.map Prod.fst).Nodup) :
    (mergePathEntry i pe (h, c)).1 = h
    ∧ (∀ p m, lookup2 (mergePathEntry i pe (h, c)).2 p m
        = if p = pe.1 ∧ (alookup m pe.2).isSome = true then some (OpRef.mk i pe.1 m)
          else lookup2 c p m)
    ∧ (∀ p, (alookup p (mergePathEntry i pe (h, c)).2).isSome = true
        ↔ p = pe.1 ∨ (alookup p c).isSome = true) := by
  have hfe : ∀ me ∈ pe.2, lookup2 (ensurePath pe.1 c) pe.1 me.1 = none := by
    intro me hme
    rw [lookup2_ensurePath]
    exact hfresh me hme
  obtain ⟨f1, f2, f3⟩ := foldl_mergeOne_fresh i pe.1 pe.2 h (ensurePath pe.1 c) hfe hnd
  unfold mergePathEntry
  refine ⟨f1, ?_, ?_⟩
  · intro p m
    rw [f2 p m, lookup2_ensurePath]
  · intro p
    rw [f3 p, isSome_ensurePath]
    constructor
    · intro hc2
      rcases hc2 with hc2 | hc2 | hc2
      · exact Or.inl hc2.2
      · exact Or.inl hc2.symm
      · exact Or.inr hc2
    · intro hc2
      rcases hc2 with hc2 | hc2
      · exact Or.inr (Or.inl hc2.symm)
      · exact Or.inr (Or.inr hc2)

/-- A successful two-level lookup comes from actual entries. -/
theorem lookup2_some_entries {α : Type} {f : List (String × List (String × α))}
    {p m : String} {v : α} (h : lookup2 f p m = some v) :
    ∃ ms, (p, ms) ∈ f ∧ (m, v) ∈ ms := by
  unfold lookup2 at h
  cases hc : alookup p f with
  | none => rw [hc] at h; simp at h
  | some ms =>
    rw [hc] at h
    exact ⟨ms, alookup_mem hc, alookup_mem (by simpa using h)⟩

/-- Entries of a well-formed fragment are found by two-level lookup. -/
theorem wf_entry_lookup2 {g : PathsMap} (hwf : PathsWF g) {p : String} {ms : Methods}
    {m : String} {v : Operation} (hpe : (p, ms) ∈ g) (hme : (m, v) ∈ ms) :
    lookup2 g p m = some v := by
  unfold lookup2
  rw [mem_alookup hwf.1 hpe, Option.some_bind]
  exact mem_alookup (hwf.2 (p, ms) hpe) hme

/-- A pair defined by f is absent from any fragment disjoint from f. -/
theorem disjoint_lookup2 {f g : PathsMap} (hd : FragsDisjoint f g) {p m : String}
    (h : (lookup2 f p m).isSome = true) : lookup2 g p m = none := by
  rw [Option.isSome_iff_exists] at h
  obtain ⟨v, hv⟩ := h
  obtain ⟨ms, hms, hmem⟩ := lookup2_some_entries hv
  exact hd (p, ms) hms (m, v) hmem

/-- A pair defined by a well-formed g that is disjoint from f is absent
from f. -/
theorem disjoint_lookup2_rev {f g : PathsMap} (hd : FragsDisjoint f g) (hwfg : PathsWF g)
    {pe : String × Methods} {me : String × Operation}
    (hpe : pe ∈ g) (hme : me ∈ pe.2) : lookup2 f pe.1 me.1 = none := by
  cases hc : lookup2 f pe.1 me.1 with
  | none => rfl
  | some v =>
    have h1 : lookup2 g pe.1 me.1 = none :=
      disjoint_lookup2 hd (by rw [hc]; rfl)
    have h2 : lookup2 g pe.1 me.1 = some me.2 :=
      wf_entry_lookup2 hwfg (by exact hpe) (by exact hme)
    rw [h1] at h2
    exact absurd h2 (by simp)

/-- Characterization of merging one entire fresh well-formed fragment. -/
theorem combineFrag_fresh (i : Nat) :
    ∀ (f : PathsMap) (h : List PathsMap) (c : Combined),
    PathsWF f →
    (∀ pe ∈ f, ∀ me ∈ pe.2, lookup2 c pe.1 me.1 = none) →
    (combineFrag i f (h, c)).1 = h
    ∧ (∀ p m, lookup2 (combineFrag i f (h, c)).2 p m
        = if (lookup2 f p m).isSome = true then some (OpRef.mk i p m) else lookup2 c p m)
    ∧ (∀ p, (alookup p (combineFrag i f (h, c)).2).isSome = true
        ↔ (alookup p f).isSome = true ∨ (alookup p c).isSome = true) := by
  intro f
  induction f with
  | nil =>
    intro h c _ _
    refine ⟨rfl, ?_, ?_⟩
    · intro p m
      simp [combineFrag, lookup2, alookup]
    · intro p
      simp [combineFrag, alookup]
  | cons pe rest ih =>
    intro h c hwf hfresh
    obtain ⟨hndp, hndm⟩ := hwf
    rw [List.map_cons, List.nodup_cons] at hndp
    have hwfr : PathsWF rest := ⟨hndp.2, fun qe hqe => hndm qe (List.mem_cons_of_mem _ hqe)⟩
    have hfe : ∀ me ∈ pe.2, lookup2 c pe.1 me.1 = none := hfresh pe (List.mem_cons_self _ _)
    obtain ⟨m1, m2, m3⟩ := mergePathEntry_fresh i pe h c hfe (hndm pe (List.mem_cons_self _ _))
    have heta : mergePathEntry i pe (h, c) = (h, (mergePathEntry i pe (h, c)).2) :=
      Prod.ext m1 rfl
    have hgoal : combineFrag i (pe :: rest) (h, c)
        = combineFrag i rest (h, (mergePathEntry i pe (h, c)).2) := by
      unfold combineFrag
      rw [List.foldl_cons, ← heta]
    rw [hgoal]
    have hfr : ∀ qe ∈ rest, ∀ me ∈ qe.2,
        lookup2 (mergePathEntry i pe (h, c)).2 qe.1 me.1 = none := by
      intro qe hqe me hme
      rw [m2]
      have hq1 : qe.1 ≠ pe.1 := by
        intro he
        exact hndp.1 (he ▸ List.mem_map.mpr ⟨qe, hqe, rfl⟩)
      rw [if_neg (fun hc2 => hq1 hc2.1)]
      exact hfresh qe (List.mem_cons_of_mem _ hqe) me hme
    obtain ⟨ih1, ih2, ih3⟩ := ih h (mergePathEntry i pe (h, c)).2 hwfr hfr
    refine ⟨ih1, ?_, ?_⟩
    · intro p m
      rw [ih2 p m, m2 p m]
      by_cases hp : pe.1 = p
      · subst hp
        have hcons : lookup2 (pe :: rest) pe.1 m = alookup m pe.2 := by
          unfold lookup2
          rw [show alookup pe.1 (pe :: rest) = some pe.2 from by simp [alookup],
            Option.some_bind]
        have hrest : lookup2 rest pe.1 m = none := by
          unfold lookup2
          rw [alookup_eq_none hndp.1]
          rfl
        rw [hcons]
        have houter : ¬ ((lookup2 rest pe.1 m).isSome = true) := by
          rw [hrest]; simp
        rw [if_neg houter]
        by_cases hm : (alookup m pe.2).isSome = true
        · rw [if_pos ⟨rfl, hm⟩, if_pos hm]
        · rw [if_neg (fun hc2 => hm hc2.2), if_neg hm]
      · have hcons : lookup2 (pe :: rest) p m = lookup2 rest p m := by
          unfold lookup2
          rw [show alookup p (pe :: rest) = alookup p rest from by
            simp [alookup, hp]]
        rw [hcons]
        by_cases hr : (lookup2 rest p m).isSome = true
        · rw [if_pos hr, if_pos hr]
        · rw [if_neg hr, if_neg hr, if_neg (fun hc2 => hp hc2.1.symm)]
    · intro p
      rw [ih3 p, m3 p]
      by_cases hp : pe.1 = p
      · simp [alookup, hp]
      · have hcons : alookup p (pe :: rest) = alookup p rest := by
          simp [alookup, hp]
        rw [hcons]
        constructor
        · intro hc2
          rcases hc2 with hc2 | hc2 | hc2
          · exact Or.inl hc2
          · exact absurd hc2.symm hp
          · exact Or.inr hc2
        · intro hc2
          rcases hc2 with hc2 | hc2
          · exact Or.inl hc2
          · exact Or.inr (Or.inr hc2)

/-- firstFragIdx misses when no pending fragment has the pair. -/
theorem firstFragIdx_none (p m : String) :
    ∀ (l : List PathsMap) (j : Nat), (∀ g ∈ l, lookup2 g p m = none) →
      firstFragIdx p m j l = none := by
  intro l
  induction l with
  | nil => intro j _; rfl
  | cons g rest ih =>
    intro j hall
    unfold firstFragIdx
    rw [hall g (List.mem_cons_self _ _)]
    simp only [Option.isSome_none, Bool.false_eq_true, if_false]
    exact ih (j + 1) (fun x hx => hall x (List.mem_cons_of_mem _ hx))

/-- Characterization of combineGo on pairwise-disjoint well-formed
fragment streams fresh with respect to the accumulated combined dict: the
heap is never mutated, and each pair resolves to the first fragment
defining it. -/
theorem combineGo_fresh :
    ∀ (pending : List PathsMap) (i : Nat) (h : List PathsMap) (c : Combined),
    (∀ f ∈ pending, PathsWF f) →
    pending.Pairwise FragsDisjoint →
    (∀ f ∈ pending, ∀ pe ∈ f, ∀ me ∈ pe.2, lookup2 c pe.1 me.1 = none) →
    (combineGo i pending (h, c)).1 = h
    ∧ (∀ p m, lookup2 (combineGo i pending (h, c)).2 p m
        = match firstFragIdx p m i pending with
          | some j => some (OpRef.mk j p m)
          | none => lookup2 c p m)
    ∧ (∀ p, (alookup p (combineGo i pending (h, c)).2).isSome = true
        ↔ (∃ f ∈ pending, (alookup p f).isSome = true) ∨ (alookup p c).isSome = true) := by
  intro pending
  induction pending with
  | nil =>
    intro i h c _ _ _
    refine ⟨rfl, ?_, ?_⟩
    · intro p m
      rfl
    · intro p
      simp [combineGo]
  | cons f rest ih =>
    intro i h c hwf hpw hfresh
    rw [List.pairwise_cons] at hpw
    obtain ⟨cf1, cf2, cf3⟩ := combineFrag_fresh i f h c (hwf f (List.mem_cons_self _ _))
      (hfresh f (List.mem_cons_self _ _))
    have heta : combineFrag i f (h, c) = (h, (combineFrag i f (h, c)).2) :=
      Prod.ext cf1 rfl
    have hgoal : combineGo i (f :: rest) (h, c)
        = combineGo (i + 1) rest (h, (combineFrag i f (h, c)).2) := by
      show combineGo (i + 1) rest (combineFrag i f (h, c)) = _
      rw [← heta]
    rw [hgoal]
    have hfr : ∀ g ∈ rest, ∀ pe ∈ g, ∀ me ∈ pe.2,
        lookup2 (combineFrag i f (h, c)).2 pe.1 me.1 = none := by
      intro g hg pe hpe me hme
      rw [cf2]
      have hnf : lookup2 f pe.1 me.1 = none :=
        disjoint_lookup2_rev (hpw.1 g hg) (hwf g (List.mem_cons_of_mem _ hg)) hpe hme
      rw [hnf]
      simp only [Option.isSome_none, Bool.false_eq_true, if_false]
      exact hfresh g (List.mem_cons_of_mem _ hg) pe hpe me hme
    obtain ⟨ih1, ih2, ih3⟩ := ih (i + 1) h (combineFrag i f (h, c)).2
      (fun g hg => hwf g (List.mem_cons_of_mem _ hg)) hpw.2 hfr
    refine ⟨ih1, ?_, ?_⟩
    · intro p m
      rw [ih2 p m, cf2 p m]
      by_cases hf : (lookup2 f p m).isSome = true
      · have hrest_none : firstFragIdx p m (i + 1) rest = none :=
          firstFragIdx_none p m rest (i + 1)
            (fun g hg => disjoint_lookup2 (hpw.1 g hg) hf)
        have hidx : firstFragIdx p m i (f :: rest) = some i := by
          show (if (lookup2 f p m).isSome = true then some i
            else firstFragIdx p m (i + 1) rest) = some i
          rw [if_pos hf]
        rw [hrest_none, hidx]
        simp only [if_pos hf]
      · have hidx : firstFragIdx p m i (f :: rest) = firstFragIdx p m (i + 1) rest := by
          show (if (lookup2 f p m).isSome = true then some i
            else firstFragIdx p m (i + 1) rest) = firstFragIdx p m (i + 1) rest
          rw [if_neg hf]
        rw [hidx]
        cases firstFragIdx p m (i + 1) rest with
        | some j => rfl
        | none => simp only [if_neg hf]
    · intro p
      rw [ih3 p, cf3 p]
      constructor
      · intro hc2
        rcases hc2 with ⟨g, hg, hsome⟩ | hc2 | hc2
        · exact Or.inl ⟨g, List.mem_cons_of_mem _ hg, hsome⟩
        · exact Or.inl ⟨f, List.mem_cons_self _ _, hc2⟩
        · exact Or.inr hc2
      · intro hc2
        rcases hc2 with ⟨g, hg, hsome⟩ | hc2
        · rcases List.mem_cons.mp hg with hg1 | hg1
          · exact Or.inr (Or.inl (hg1 ▸ hsome))
          · exact Or.inl ⟨g, hg1, hsome⟩
        · exact Or.inr (Or.inr hc2)

/-- Presence of a path is preserved by dereferencing. -/
theorem isSome_derefPaths (h : List PathsMap) (c : Combined) (p : String) :
    (alookup p (derefPaths h c)).isSome = (alookup p c).isSome := by
  rw [alookup_derefPaths]
  cases alookup p c <;> rfl

/-- Bool equality from the corresponding iff. -/
theorem bool_eq_of_iff {x y : Bool} (h : x = true ↔ y = true) : x = y := by
  cases x <;> cases y <;> simp_all

/-- Full computation of combine_specs on two one-operation fragments with
the same path and method: the second fragment's fresh parameters are
appended in place into the first stored fragment, the combined document
references that mutated operation, and the second fragment is returned
unchanged. -/
theorem combine_two_collide (u p m : String) (a b : Operation) :
    combine_specs u [fragOf p m a, fragOf p m b]
      = (SpecDoc.mk "3.0.0"
          (SpecInfo.mk "API Documentation" "1.0.0"
            ("API documentation crawled from " ++ u))
          [(p, [(m, setOpParams a (a.parameters ++ freshParams a b))])],
         [fragOf p m (setOpParams a (a.parameters ++ freshParams a b)), fragOf p m b]) := by
  simp [combine_specs, combineGo, combineFrag, mergePathEntry, mergeOne, ensurePath,
    alookup, aupdate, lookup2, getOp, mutateOp, derefPaths, derefMethods, fragOf,
    freshParams, setOpParams, List.getD]

/-- The merged document's operation lookup for a pair of disjoint
well-formed fragments: the first fragment defining the pair wins. -/
theorem combine_two_doc_lookup (u : String) (A B : PathsMap)
    (hwfA : PathsWF A) (hwfB : PathsWF B) (hd : FragsDisjoint A B) (p m : String) :
    lookup2 (combine_specs u [A, B]).1.paths p m
      = if (lookup2 A p m).isSome = true then some ((lookup2 A p m).getD defaultOp)
        else if (lookup2 B p m).isSome = true then some ((lookup2 B p m).getD defaultOp)
        else none := by
  have hwfs : ∀ f ∈ [A, B], PathsWF f := by
    intro f hf
    rcases List.mem_cons.mp hf with h1 | h1
    · exact h1 ▸ hwfA
    · rw [List.mem_singleton] at h1
      exact h1 ▸ hwfB
  have hpw : [A, B].Pairwise FragsDisjoint := by
    rw [List.pairwise_cons]
    refine ⟨fun g hg => ?_, List.pairwise_singleton _ _⟩
    rw [List.mem_singleton] at hg
    exact hg ▸ hd
  obtain ⟨g1, g2, g3⟩ := combineGo_fresh [A, B] 0 [A, B] []
    hwfs hpw (fun _ _ _ _ _ _ => rfl)
  show lookup2 (derefPaths (combineGo 0 [A, B] ([A, B], [])).1
    (combineGo 0 [A, B] ([A, B], [])).2) p m = _
  rw [g1, lookup2_derefPaths, g2 p m]
  by_cases hA1 : (lookup2 A p m).isSome = true
  · have hidx : firstFragIdx p m 0 [A, B] = some 0 := by
      show (if (lookup2 A p m).isSome = true then some 0
        else firstFragIdx p m 1 [B]) = some 0
      rw [if_pos hA1]
    rw [hidx, if_pos hA1]
    simp [getOp, List.getD]
  · have hidx1 : firstFragIdx p m 0 [A, B] = firstFragIdx p m 1 [B] := by
      show (if (lookup2 A p m).isSome = true then some 0
        else firstFragIdx p m 1 [B]) = firstFragIdx p m 1 [B]
      rw [if_neg hA1]
    by_cases hB1 : (lookup2 B p m).isSome = true
    · have hidx2 : firstFragIdx p m 1 [B] = some 1 := by
        show (if (lookup2 B p m).isSome = true then some 1
          else firstFragIdx p m 2 []) = some 1
        rw [if_pos hB1]
      rw [hidx1, hidx2, if_neg hA1, if_pos hB1]
      simp [getOp, List.getD]
    · have hidx2 : firstFragIdx p m 1 [B] = none := by
        show (if (lookup2 B p m).isSome = true then some 1
          else firstFragIdx p m 2 []) = none
        rw [if_neg hB1]
        rfl
      rw [hidx1, hidx2, if_neg hA1, if_neg hB1]
      rfl

/-- The merged document's path presence for a pair of disjoint well-formed
fragments. -/
theorem combine_two_doc_isSome (u : String) (A B : PathsMap)
    (hwfA : PathsWF A) (hwfB : PathsWF B) (hd : FragsDisjoint A B) (p : String) :
    (alookup p (combine_specs u [A, B]).1.paths).isSome = true
      ↔ (alookup p A).isSome = true ∨ (alookup p B).isSome = true := by
  have hwfs : ∀ f ∈ [A, B], PathsWF f := by
    intro f hf
    rcases List.mem_cons.mp hf with h1 | h1
    · exact h1 ▸ hwfA
    · rw [List.mem_singleton] at h1
      exact h1 ▸ hwfB
  have hpw : [A, B].Pairwise FragsDisjoint := by
    rw [List.pairwise_cons]
    refine ⟨fun g hg => ?_, List.pairwise_singleton _ _⟩
    rw [List.mem_singleton] at hg
    exact hg ▸ hd
  obtain ⟨g1, g2, g3⟩ := combineGo_fresh [A, B] 0 [A, B] []
    hwfs hpw (fun _ _ _ _ _ _ => rfl)
  have hred : (alookup p (combine_specs u [A, B]).1.paths).isSome
      = (alookup p (combineGo 0 [A, B] ([A, B], [])).2).isSome := by
    show (alookup p (derefPaths _ _)).isSome = _
    rw [isSome_derefPaths]
  rw [hred, g3 p]
  constructor
  · intro hc2
    rcases hc2 with ⟨g, hg, hsome⟩ | hc2
    · rcases List.mem_cons.mp hg with h1 | h1
      · exact Or.inl (h1 ▸ hsome)
      · rw [List.mem_singleton] at h1
        exact Or.inr (h1 ▸ hsome)
    · simp [alookup] at hc2
  · intro hc2
    rcases hc2 with hc2 | hc2
    · exact Or.inl ⟨A, List.mem_cons_self _ _, hc2⟩
    · exact Or.inl ⟨B, List.mem_cons_of_mem _ (List.mem_cons_self _ _), hc2⟩

/-- C2 amended: the merge is order-independent exactly on collision-free
inputs: for well-formed fragments A and B no path+method pair of which is
defined by both, combine_specs on [A, B] and on [B, A] produce equal
documents in the Python sense (order-insensitive dict equality,
order-sensitive list equality).  The counterexample shows this fails as
soon as a path+method pair is shared, because the first-seen operation's
fields win and parameters append in encounter order. -/
theorem C2_merge_comm_of_disjoint (u : String) (A B : PathsMap)
    (hA : PathsWF A) (hB : PathsWF B) (hd : FragsDisjoint A B) :
    SpecDocEquiv (combine_specs u [A, B]).1 (combine_specs u [B, A]).1 := by
  have hdBA : FragsDisjoint B A := fun pe hpe me hme => disjoint_lookup2_rev hd hB hpe hme
  refine ⟨rfl, rfl, ?_⟩
  intro p
  constructor
  · apply bool_eq_of_iff
    rw [combine_two_doc_isSome u A B hA hB hd p, combine_two_doc_isSome u B A hB hA hdBA p]
    exact or_comm
  · intro a b ha hb m0
    have hXa : lookup2 (combine_specs u [A, B]).1.paths p m0 = alookup m0 a := by
      unfold lookup2
      rw [ha, Option.some_bind]
    have hYb : lookup2 (combine_specs u [B, A]).1.paths p m0 = alookup m0 b := by
      unfold lookup2
      rw [hb, Option.some_bind]
    have e1 := combine_two_doc_lookup u A B hA hB hd p m0
    have e2 := combine_two_doc_lookup u B A hB hA hdBA p m0
    rw [hXa] at e1
    rw [hYb] at e2
    rw [e1, e2]
    by_cases hA1 : (lookup2 A p m0).isSome = true
    · have hB1 : lookup2 B p m0 = none := disjoint_lookup2 hd hA1
      rw [if_pos hA1, if_neg (by rw [hB1]; simp), if_pos hA1]
    · rw [if_neg hA1]
      by_cases hB1 : (lookup2 B p m0).isSome = true
      · rw [if_pos hB1, if_pos hB1]
      · rw [if_neg hB1, if_neg hB1, if_neg hA1]

/-- C2 witness: the amended commutativity applied to two concrete
fragments on disjoint path+method pairs. -/
theorem C2_merge_comm_witness :
    SpecDocEquiv (combine_specs "u" [fragA, fragC]).1 (combine_specs "u" [fragC, fragA]).1 :=
  C2_merge_comm_of_disjoint "u" fragA fragC (by decide) (by decide) (by decide)

/-- C7 amended: when the two parameter lists have disjoint (name, in)
pairs and each list is itself duplicate-free, the merged operation's
parameter list is exactly A's list followed by B's list, with no
duplicate (name, in) pair: nothing already present is appended again and
every new parameter is appended. -/
theorem C7_param_union (u p m : String) (a b : Operation)
    (hd : ∀ q ∈ b.parameters, paramKey q ∉ a.parameters.map paramKey)
    (ha : (a.parameters.map paramKey).Nodup)
    (hb : (b.parameters.map paramKey).Nodup) :
    lookup2 (combine_specs u [fragOf p m a, fragOf p m b]).1.paths p m
      = some (setOpParams a (a.parameters ++ b.parameters))
    ∧ ((a.parameters ++ b.parameters).map paramKey).Nodup := by
  have hfresh : freshParams a b = b.parameters := by
    unfold freshParams
    apply List.filter_eq_self.mpr
    intro q hq
    have hkey : hasKey (a.parameters.map paramKey) (paramKey q) = false := by
      unfold hasKey
      rw [List.any_eq_false]
      intro x hx
      simp only [decide_eq_true_eq]
      intro he
      exact hd q hq (he ▸ hx)
    rw [hkey]
    rfl
  constructor
  · rw [combine_two_collide u p m a b, hfresh]
    simp [lookup2, alookup]
  · rw [List.map_append]
    refine List.Nodup.append ha hb ?_
    intro x hxa hxb
    rcases List.mem_map.mp hxb with ⟨q, hq, hqx⟩
    exact hd q hq (hqx ▸ hxa)

/-- C7 witness: the amended parameter-union property at concrete
operations with disjoint duplicate-free parameter lists. -/
theorem C7_param_union_witness :
    lookup2 (combine_specs "u" [fragOf "/x" "get" opA, fragOf "/x" "get" opB]).1.paths
        "/x" "get"
      = some (setOpParams opA (opA.parameters ++ opB.parameters))
    ∧ ((opA.parameters ++ opB.parameters).map paramKey).Nodup :=
  C7_param_union "u" "/x" "get" opA opB (by decide) (by decide) (by decide)

/-- C5 amended: combine_specs performs no I/O and is a deterministic
function of the fragment collection, but it is pure only on collision-free
collections: with pairwise-disjoint well-formed fragments the post-merge
heap equals the input collection, while two fragments sharing a
path+method have the later fragment's fresh parameters appended in place
into the earlier stored fragment's operation. -/
theorem C5_mutation_characterization :
    (∀ (u : String) (frags : List PathsMap), (∀ f ∈ frags, PathsWF f) →
      frags.Pairwise FragsDisjoint → (combine_specs u frags).2 = frags)
    ∧ (∀ (u p m : String) (a b : Operation),
      (combine_specs u [fragOf p m a, fragOf p m b]).2
        = [fragOf p m (setOpParams a (a.parameters ++ freshParams a b)), fragOf p m b]) := by
  constructor
  · intro u frags hwf hpw
    obtain ⟨g1, _, _⟩ := combineGo_fresh frags 0 frags [] hwf hpw
      (fun _ _ _ _ _ _ => rfl)
    exact g1
  · intro u p m a b
    rw [combine_two_collide u p m a b]

/-- C5 witness: both parts of the mutation characterization at concrete
fragments. -/
theorem C5_mutation_witness :
    (combine_specs "u" [fragA, fragC]).2 = [fragA, fragC]
    ∧ (combine_specs "u" [fragOf "/x" "get" opA, fragOf "/x" "get" opB]).2
        = [fragOf "/x" "get" (setOpParams opA (opA.parameters ++ freshParams opA opB)),
           fragOf "/x" "get" opB] :=
  ⟨C5_mutation_characterization.1 "u" [fragA, fragC] (by decide) (by decide),
   C5_mutation_characterization.2 "u" "/x" "get" opA opB⟩

/-! ## Crawl-loop lemmas -/

/-- The result loop only ever appends to the classified-URL list. -/
theorem processResults_extends (m : Option Nat) :
    ∀ (rs : List (Option String)) (docs : List String), docs <+: processResults m docs rs := by
  intro rs
  induction rs with
  | nil =>
    intro docs
    exact List.prefix_refl _
  | cons r rest ih =>
    intro docs
    cases r with
    | none => exact ih docs
    | some s =>
      simp only [processResults]
      by_cases h1 : s = ""
      · rw [if_pos h1]
        exact ih docs
      · rw [if_neg h1]
        by_cases h2 : lmem s docs = true
        · rw [if_pos h2]
          split
          · exact List.prefix_refl _
          · exact ih docs
        · rw [if_neg h2]
          by_cases h3 : lmem (stripFragment s) docs = true
          · rw [if_pos h3]
            exact ih docs
          · rw [if_neg h3]
            split
            · exact List.prefix_append _ _
            · exact (List.prefix_append _ _).trans (ih (docs ++ [s]))

/-- crawlLoop only ever appends to the classified-URL list. -/
theorem crawlLoop_extends (lib : UrlLib) (world : String → Fetch) (baseDomain : String)
    (m : Option Nat) :
    ∀ (fuel : Nat) (toVisit visited apiDocs : List String),
      apiDocs <+: crawlLoop lib world baseDomain m fuel toVisit visited apiDocs := by
  intro fuel
  induction fuel with
  | zero =>
    intro tv vis docs
    exact List.prefix_refl _
  | succ fuel ih =>
    intro tv vis docs
    simp only [crawlLoop]
    by_cases h1 : tv.isEmpty = true
    · rw [if_pos h1]
    · rw [if_neg h1]
      split
      · exact processResults_extends _ _ _
      · exact (processResults_extends _ _ _).trans (ih _ _ _)

/-- An empty frontier ends the loop at once with the current list. -/
theorem crawlLoop_nil_toVisit (lib : UrlLib) (world : String → Fetch) (baseDomain : String)
    (m : Option Nat) :
    ∀ (fuel : Nat) (visited apiDocs : List String),
      crawlLoop lib world baseDomain m fuel [] visited apiDocs = apiDocs := by
  intro fuel
  cases fuel with
  | zero => intro vis docs; rfl
  | succ fuel => intro vis docs; simp [crawlLoop]

/-- A falsified bound check with a truthy bound means the list is still
below the bound. -/
theorem pyBound_false_lt {n len : Nat} (hn : n ≠ 0) (h : ¬ pyBound (some n) len = true) :
    len < n := by
  unfold pyBound at h
  rw [Bool.and_eq_true, decide_eq_true_eq, decide_eq_true_eq] at h
  omega

/-- The result loop never takes the list beyond the bound when it starts
below it: every append is followed by a bound check. -/
theorem processResults_le (n : Nat) (hn : n ≠ 0) :
    ∀ (rs : List (Option String)) (docs : List String), docs.length < n →
      (processResults (some n) docs rs).length ≤ n := by
  intro rs
  induction rs with
  | nil =>
    intro docs h
    exact Nat.le_of_lt h
  | cons r rest ih =>
    intro docs h
    cases r with
    | none => exact ih docs h
    | some s =>
      simp only [processResults]
      by_cases h1 : s = ""
      · rw [if_pos h1]
        exact ih docs h
      · rw [if_neg h1]
        by_cases h2 : lmem s docs = true
        · rw [if_pos h2]
          split
          · exact Nat.le_of_lt h
          · exact ih docs h
        · rw [if_neg h2]
          by_cases h3 : lmem (stripFragment s) docs = true
          · rw [if_pos h3]
            exact ih docs h
          · rw [if_neg h3]
            split
            · simp only [List.length_append, List.length_singleton]
              omega
            · apply ih
              have h5 := pyBound_false_lt hn (by assumption)
              omega

/-- crawlLoop keeps the classified list within the bound once below it. -/
theorem crawlLoop_le (lib : UrlLib) (world : String → Fetch) (baseDomain : String)
    (n : Nat) (hn : n ≠ 0) :
    ∀ (fuel : Nat) (toVisit visited apiDocs : List String), apiDocs.length < n →
      (crawlLoop lib world baseDomain (some n) fuel toVisit visited apiDocs).length ≤ n := by
  intro fuel
  induction fuel with
  | zero =>
    intro tv vis docs h
    exact Nat.le_of_lt h
  | succ fuel ih =>
    intro tv vis docs h
    simp only [crawlLoop]
    by_cases h1 : tv.isEmpty = true
    · rw [if_pos h1]
      exact Nat.le_of_lt h
    · rw [if_neg h1]
      split
      · exact processResults_le n hn _ docs h
      · exact ih _ _ _ (pyBound_false_lt hn (by assumption))

/-- process_page yields either no classification or the very URL it was
given. -/
theorem process_page_fst (lib : UrlLib) (world : String → Fetch) (visited : List String)
    (baseDomain url : String) :
    (process_page lib world visited baseDomain url).1 = none
    ∨ (process_page lib world visited baseDomain url).1 = some url := by
  cases hw : world url with
  | raises k msg => simp [process_page, hw]
  | resp status ct pg =>
    simp only [process_page, hw]
    by_cases h1 : status ≠ 200
    · simp [h1]
    · simp only [if_neg h1]
      by_cases h2 : (!(pyIn "text/html" (pyLower ct))) = true
      · simp [h2]
      · simp only [if_neg h2]
        by_cases h3 : is_api_doc_page pg = true
        · simp [h3]
        · simp [h3]

/-- C8: with a page bound n of at least 1, the classified-URL list never
exceeds n entries: the bound is checked after every append inside the
result loop and again after each round, and for n = 1 the only round that
runs can classify at most the base URL, which is already seeded. -/
theorem C8_max_pages_bound (lib : UrlLib) (world : String → Fetch) (base : String)
    (n fuel : Nat) (hn : 1 ≤ n) :
    (crawl_subpages lib world base (some n) fuel).length ≤ n := by
  rcases Nat.lt_or_ge 1 n with h1 | h1
  · exact crawlLoop_le lib world (lib.netloc base) n (by omega) fuel [base] [] [base]
      (by simpa using h1)
  · have hn1 : n = 1 := by omega
    subst hn1
    cases fuel with
    | zero => simp [crawl_subpages, crawlLoop]
    | succ fuel =>
      have hne : ¬ (([base] : List String).isEmpty = true) := by simp
      have hg : gatherTasks [] [base] = ([base], [base]) := by simp [gatherTasks, lmem]
      have hround : processResults (some 1) [base]
          (List.map Prod.fst
            (List.map (process_page lib world [base] (lib.netloc base)) [base]))
          = [base] := by
        rw [List.map_cons, List.map_nil, List.map_cons, List.map_nil]
        rcases process_page_fst lib world [base] (lib.netloc base) base with hx | hx
        · rw [hx]
          rfl
        · rw [hx]
          simp only [processResults]
          by_cases hb : base = ""
          · rw [if_pos hb]
          · rw [if_neg hb]
            have hm : lmem base [base] = true := by simp [lmem]
            rw [if_pos hm,
              if_pos (by rfl : pyBound (some 1) ([base] : List String).length = true)]
      show (crawlLoop lib world (lib.netloc base) (some 1) (fuel + 1) [base] [] [base]).length
        ≤ 1
      simp only [crawlLoop]
      rw [if_neg hne, hg]
      dsimp only
      rw [hround,
        if_pos (by rfl : pyBound (some 1) ([base] : List String).length = true)]
      simp

/-- C8 witness: bound 2 on a world with five same-domain documentation
pages. -/
theorem C8_max_pages_bound_witness :
    1 ≤ 2 ∧ (crawl_subpages libFlat worldFive baseUrl0 (some 2) 5).length ≤ 2 :=
  ⟨by decide, C8_max_pages_bound libFlat worldFive baseUrl0 2 5 (by decide)⟩

/-- C10: for every URL library, fetch world, base URL, bound and fuel, the
classified-URL list is non-empty and starts with the base URL: the list is
seeded with it before any fetch, classification or bound check, and
entries are only ever appended after it. -/
theorem C10_base_url_first (lib : UrlLib) (world : String → Fetch) (base : String)
    (m : Option Nat) (fuel : Nat) :
    crawl_subpages lib world base m fuel ≠ []
    ∧ (crawl_subpages lib world base m fuel).head? = some base := by
  obtain ⟨t, ht⟩ := crawlLoop_extends lib world (lib.netloc base) m fuel [base] [] [base]
  have hc : crawl_subpages lib world base m fuel = base :: t := by
    show crawlLoop lib world (lib.netloc base) m fuel [base] [] [base] = base :: t
    rw [← ht]
    rfl
  rw [hc]
  exact ⟨by simp, rfl⟩

/-- C4 amended: for an isolated base page (fetched as HTML, no outbound
links, not classified) the classified-URL list is exactly the one-element
list [baseURL] - the base URL is seeded unconditionally, so the list is
never empty - and, since the crawl extracts from every listed URL, the
merged document's paths mapping is empty provided extraction for the base
page yields no fragment. -/
theorem C4_isolated_page (lib : UrlLib) (world : String → Fetch) (aiw : String → AICall)
    (base : String) (m : Option Nat) (fuel : Nat) (ct : String) (pg : Page)
    (hw : world base = Fetch.resp 200 ct pg)
    (hct : pyIn "text/html" (pyLower ct) = true)
    (hlinks : pg.links = [])
    (hclass : is_api_doc_page pg = false)
    (hai : parse_api_page (world base) (aiw base) = Except.ok none) :
    crawl_subpages lib world base m fuel = [base]
    ∧ crawl lib world aiw base m fuel = Except.ok
        (SpecDoc.mk "3.0.0" (SpecInfo.mk "API Documentation" "1.0.0"
          ("API documentation crawled from " ++ base)) []) := by
  have hpp : process_page lib world [base] (lib.netloc base) base = (none, []) := by
    simp only [process_page, hw]
    rw [if_neg (by omega : ¬ ((200 : Nat) ≠ 200)),
      if_neg (by simp [hct] : ¬ ((!(pyIn "text/html" (pyLower ct))) = true))]
    simp [hlinks, hclass]
  have hsub : crawl_subpages lib world base m fuel = [base] := by
    cases fuel with
    | zero => rfl
    | succ fuel =>
      have hne : ¬ (([base] : List String).isEmpty = true) := by simp
      have hg : gatherTasks [] [base] = ([base], [base]) := by simp [gatherTasks, lmem]
      show crawlLoop lib world (lib.netloc base) m (fuel + 1) [base] [] [base] = [base]
      simp only [crawlLoop]
      rw [if_neg hne, hg]
      dsimp only
      rw [List.map_cons, List.map_nil, hpp]
      simp only [List.map_cons, List.map_nil, List.foldl_cons, List.foldl_nil]
      show (if pyBound m (processResults m [base] [none]).length = true
        then processResults m [base] [none]
        else crawlLoop lib world (lib.netloc base) m fuel (setAddAll [] []) [base]
          (processResults m [base] [none])) = [base]
      have hpr : processResults m [base] [none] = [base] := rfl
      rw [hpr]
      split
      · rfl
      · exact crawlLoop_nil_toVisit lib world (lib.netloc base) m fuel [base] [base]
  refine ⟨hsub, ?_⟩
  unfold crawl
  rw [hsub]
  simp only [storeFrags, hai]
  rfl

/-- C4 witness: the amended statement at the concrete isolated world with
an AI collaborator that extracts nothing. -/
theorem C4_isolated_page_witness :
    crawl_subpages libFlat worldIsolated baseUrl0 none 3 = [baseUrl0]
    ∧ crawl libFlat worldIsolated aiNothing baseUrl0 none 3 = Except.ok
        (SpecDoc.mk "3.0.0" (SpecInfo.mk "API Documentation" "1.0.0"
          ("API documentation crawled from " ++ baseUrl0)) []) :=
  C4_isolated_page libFlat worldIsolated aiNothing baseUrl0 none 3 "text/html" pgEmpty
    (by decide) (by decide) rfl (by decide) rfl

end APIHub
